import Mathlib

/-!
Shallow embedding of the `bytesizer` Go package (src/bytesizer.go).

Modelling conventions:
* Go `type ByteSize int` is modelled as unbounded `ℤ`; every operation of the
  package on the 64-bit range is overflow-free (divisions by positive
  constants, comparisons), so the model agrees with the source there.
* Go `float64` values are modelled as exact rationals `ℚ`; `math.Floor` is
  `Int.floor`, `math.Round` (round half away from zero) is `goRoundInt`,
  and the Go conversion `int(f)` (truncation toward zero) is `ratTrunc`.
* Go strings are modelled as `List Char`.
* `strconv.ParseFloat` is modelled by `goParseFloat` on its decimal fragment
  (optional sign, digits with an optional dot, optional decimal exponent).
* The unbounded loop in `decimalPlaces` is given fuel; every value the
  package ever passes to it is a dyadic rational with denominator dividing
  2^50, for which the loop stops within 50 iterations, so fuel 100 is exact.
-/

/-- Go `type ByteSize int`. -/
abbrev ByteSize := ℤ

/-- `Byte ByteSize = 1 << (10 * iota)`. -/
def Byte : ByteSize := 2 ^ 0

/-- `KB = 1 << 10`. -/
def KB : ByteSize := 2 ^ 10

/-- `MB = 1 << 20`. -/
def MB : ByteSize := 2 ^ 20

/-- `GB = 1 << 30`. -/
def GB : ByteSize := 2 ^ 30

/-- `TB = 1 << 40`. -/
def TB : ByteSize := 2 ^ 40

/-- `PB = 1 << 50`. -/
def PB : ByteSize := 2 ^ 50

/-- The package-level `units` slice of (size, unitName) pairs. -/
def units : List (ByteSize × List Char) :=
  [(Byte, "B".toList), (KB, "KB".toList), (MB, "MB".toList),
   (GB, "GB".toList), (TB, "TB".toList), (PB, "PB".toList)]

/-- Go `math.Round`: round half away from zero, returned as the integer it
denotes (Go returns it as a float64 with integral value). -/
def goRoundInt (f : ℚ) : ℤ := if 0 ≤ f then ⌊f + 1 / 2⌋ else -⌊-f + 1 / 2⌋

/-- Go conversion `int(f)` of a float64 to an integer: truncation toward zero. -/
def ratTrunc (q : ℚ) : ℤ := if 0 ≤ q then ⌊q⌋ else ⌈q⌉

/-- One step structure of `decimalPlaces`' loop
`for math.Abs(f-math.Floor(f)) > epsilon { f *= 10; n++ }` with fuel. -/
def decimalPlacesAux : ℕ → ℚ → ℕ
  | 0, _ => 0
  | fuel + 1, f =>
    if 1 / 10 ^ 10 < |f - (⌊f⌋ : ℚ)| then decimalPlacesAux fuel (f * 10) + 1 else 0

/-- Go `decimalPlaces`: counts the decimal places of a float64 (epsilon 1e-10).
Fuel 100 is exact for every value the package passes in (see module comment). -/
def decimalPlaces (f : ℚ) : ℕ := decimalPlacesAux 100 f

/-- The ten decimal digit characters. -/
def decDigits : List Char := ['0', '1', '2', '3', '4', '5', '6', '7', '8', '9']

/-- The character of a decimal digit. -/
def digitChar (n : ℕ) : Char := decDigits.getD n '9'

/-- Decimal rendering of a natural number, least significant digit last
(the digits of Go `fmt.Sprintf("%d", n)`), with fuel for structural recursion. -/
def natStrAux : ℕ → ℕ → List Char
  | 0, _ => []
  | fuel + 1, n =>
    if n < 10 then [digitChar n]
    else natStrAux fuel (n / 10) ++ [digitChar (n % 10)]

/-- Decimal rendering of a natural number; fuel `n + 1` always suffices. -/
def natStr (n : ℕ) : List Char := natStrAux (n + 1) n

/-- Left-pad a digit string with zeros to width `d`. -/
def padLeftZeros (d : ℕ) (l : List Char) : List Char :=
  List.replicate (d - l.length) '0' ++ l

/-- Go `fmt.Sprintf("%.*f", d, x)` where `x` is an exact multiple of `10^(-d)`,
given as the integer `m = x * 10^d`: fixed-point decimal with exactly `d`
digits after the point (no point at all when `d = 0`). -/
def renderFixed (m : ℤ) (d : ℕ) : List Char :=
  if d = 0 then (if m < 0 then '-' :: natStr m.natAbs else natStr m.natAbs)
  else
    (if m < 0 then ['-'] else []) ++ natStr (m.natAbs / 10 ^ d) ++
      '.' :: padLeftZeros d (natStr (m.natAbs % 10 ^ d))

/-- Go `formatString(v, unit, maxDecimalCount...)`: count the natural decimal
places of `v`, cap them at the (optional, nonnegative) maximum, round `v` to
that many places (`math.Round` of `v * 10^decimals`, then divide back) and
print fixed-point with exactly that many digits, followed by the unit. -/
def formatString (v : ℚ) (unit : List Char) (maxDecimalCount : Option ℤ) :
    List Char :=
  let decimals0 := decimalPlaces v
  let decimals : ℕ :=
    match maxDecimalCount with
    | some mdc => if 0 ≤ mdc ∧ mdc < (decimals0 : ℤ) then mdc.toNat else decimals0
    | none => decimals0
  renderFixed (goRoundInt (v * 10 ^ decimals)) decimals ++ unit

/-- The unit chosen by the `switch` in Go `ByteSize.String`: the first case
`fs >= PB`, `fs >= TB`, ..., `fs >= KB` that fires, else `Byte`. -/
def ByteSize.selectUnit (fs : ByteSize) : ByteSize × List Char :=
  if fs ≥ PB then (PB, "PB".toList)
  else if fs ≥ TB then (TB, "TB".toList)
  else if fs ≥ GB then (GB, "GB".toList)
  else if fs ≥ MB then (MB, "MB".toList)
  else if fs ≥ KB then (KB, "KB".toList)
  else (Byte, "B".toList)

/-- Go `ByteSize.String`: each switch branch is
`formatString(float64(fs)/float64(U), suffix, 2)` for the selected unit. -/
def ByteSize.String (fs : ByteSize) : List Char :=
  formatString ((fs : ℚ) / ((ByteSize.selectUnit fs).1 : ℚ))
    (ByteSize.selectUnit fs).2 (some 2)

/-- Go `ByteSize.Format`: compute `unitVal = float64(fs)/float64(bu)`, scan the
`units` slice for the first entry whose size equals `bu` and format with its
name; if none matches, fall back to `fs.String()`. -/
def ByteSize.Format (fs : ByteSize) (bu : ByteSize) : List Char :=
  let unitVal : ℚ := (fs : ℚ) / (bu : ℚ)
  match units.find? (fun u => u.1 == bu) with
  | some u => formatString unitVal u.2 (some 2)
  | none => ByteSize.String fs

/-- Go `ByteSize.ByteInt`: `int(fs)`. -/
def ByteSize.ByteInt (fs : ByteSize) : ℤ := fs

/-- Go `ByteSize.KBInt`: `int(fs / KB)` (Go integer division truncates). -/
def ByteSize.KBInt (fs : ByteSize) : ℤ := Int.tdiv fs KB

/-- Go `ByteSize.MBInt`: `int(fs / MB)`. -/
def ByteSize.MBInt (fs : ByteSize) : ℤ := Int.tdiv fs MB

/-- Go `ByteSize.GBInt`: `int(fs / GB)`. -/
def ByteSize.GBInt (fs : ByteSize) : ℤ := Int.tdiv fs GB

/-- Go `ByteSize.TBInt`: `int(fs / TB)`. -/
def ByteSize.TBInt (fs : ByteSize) : ℤ := Int.tdiv fs TB

/-- Go `ByteSize.PBInt`: the source computes `int(fs / TB)` — it divides by
`TB`, exactly as written in src/bytesizer.go. -/
def ByteSize.PBInt (fs : ByteSize) : ℤ := Int.tdiv fs TB

/-- The three error shapes `Parse` can return (`fmt.Errorf` messages resp. the
error propagated from `strconv.ParseFloat`), with their data. -/
inductive ParseError
  | emptyInput : ParseError
  | invalidUnit : List Char → ParseError
  | malformedNumber : List Char → ParseError
deriving DecidableEq

/-- The string `"KMGTP"` whose containment check picks a two-letter unit. -/
def goKMGTP : List Char := "KMGTP".toList

/-- The local `units` map inside Go `Parse`. -/
def goUnitsMap : List (List Char × ByteSize) :=
  [("B".toList, Byte), ("KB".toList, KB), ("MB".toList, MB),
   ("GB".toList, GB), ("TB".toList, TB), ("PB".toList, PB)]

/-- Lookup in the `units` map of `Parse`. -/
def lookupUnit (name : List Char) : Option ByteSize :=
  Option.map (fun p => p.2) (goUnitsMap.find? (fun p => p.1 == name))

/-- Go `strings.ToUpper` on ASCII strings. -/
def goToUpper (l : List Char) : List Char := l.map Char.toUpper

/-- Suffix extraction of Go `Parse`: if `len(s) > 2` and the second-to-last
character is one of `KMGTP`, the last two characters are the unit name and the
rest is the value; otherwise the last character alone is the unit name.
Returns (unitName, valueStr). -/
def splitUnit (s : List Char) : List Char × List Char :=
  if 2 < s.length ∧ goKMGTP.contains (s.getD (s.length - 2) ' ') = true then
    (s.drop (s.length - 2), s.take (s.length - 2))
  else
    (s.drop (s.length - 1), s.take (s.length - 1))

/-- Split a list at the first character satisfying `p`; the second component
is `none` when no character matches. -/
def splitFirst (p : Char → Bool) : List Char → List Char × Option (List Char)
  | [] => ([], none)
  | c :: rest =>
    if p c then ([], some rest)
    else
      let r := splitFirst p rest
      (c :: r.1, r.2)

/-- The value of a digit string, most significant digit first. -/
def digitsToNat (l : List Char) : ℕ := l.foldl (fun a c => 10 * a + (c.toNat - 48)) 0

/-- Mantissa of a decimal float literal: digits with at most one dot, and at
least one digit overall. -/
def parseMantissa (l : List Char) : Option ℚ :=
  match splitFirst (fun c => c == '.') l with
  | (ip, none) =>
    if ip ≠ [] ∧ ip.all Char.isDigit then some ((digitsToNat ip : ℕ) : ℚ)
    else none
  | (ip, some fp) =>
    if (ip ≠ [] ∨ fp ≠ []) ∧ ip.all Char.isDigit ∧ fp.all Char.isDigit then
      some (((digitsToNat ip : ℕ) : ℚ) + ((digitsToNat fp : ℕ) : ℚ) / 10 ^ fp.length)
    else none

/-- Exponent part of a decimal float literal: optional sign, then digits. -/
def parseExponent (l : List Char) : Option ℤ :=
  match l with
  | '+' :: r => if r ≠ [] ∧ r.all Char.isDigit then some ((digitsToNat r : ℕ) : ℤ) else none
  | '-' :: r => if r ≠ [] ∧ r.all Char.isDigit then some (-((digitsToNat r : ℕ) : ℤ)) else none
  | _ => if l ≠ [] ∧ l.all Char.isDigit then some ((digitsToNat l : ℕ) : ℤ) else none

/-- Unsigned decimal float literal: mantissa with an optional `e`/`E` exponent. -/
def parseUnsigned (l : List Char) : Option ℚ :=
  match splitFirst (fun c => c == 'e' || c == 'E') l with
  | (mant, none) => parseMantissa mant
  | (mant, some ex) =>
    match parseMantissa mant, parseExponent ex with
    | some m, some e => some (m * 10 ^ e)
    | _, _ => none

/-- Go `strconv.ParseFloat(s, 64)` on its decimal fragment: an optional sign,
then an unsigned decimal literal ("Inf"/"NaN"/hex floats are out of the model). -/
def goParseFloat (l : List Char) : Option ℚ :=
  match l with
  | [] => none
  | c :: r =>
    if c == '+' then parseUnsigned r
    else if c == '-' then Option.map (fun q => -q) (parseUnsigned r)
    else parseUnsigned (c :: r)

/-- Go `Parse(s)`: returns the pair Go returns — the ByteSize and the error
(`nil` modelled as `none`). On each error path the source returns `0` for the
size. The success value is `ByteSize(value * float64(unit))`, a truncating
float-to-int conversion. -/
def Parse (s : List Char) : ByteSize × Option ParseError :=
  if s.length = 0 then (0, some ParseError.emptyInput)
  else
    match lookupUnit (goToUpper (splitUnit s).1) with
    | none => (0, some (ParseError.invalidUnit (splitUnit s).1))
    | some unit =>
      match goParseFloat (splitUnit s).2 with
      | none => (0, some (ParseError.malformedNumber (splitUnit s).2))
      | some value => (ratTrunc (value * (unit : ℚ)), none)

/-- The number of consecutive digit characters directly after the first `'.'`
of a string (0 when there is no `'.'`). -/
def digitsAfterDot : List Char → ℕ
  | [] => 0
  | c :: rest =>
    if c = '.' then (rest.takeWhile Char.isDigit).length else digitsAfterDot rest

/-! Helper lemmas. -/

theorem ratTrunc_intCast (z : ℤ) : ratTrunc ((z : ℤ) : ℚ) = z := by
  unfold ratTrunc
  split <;> simp

theorem Parse_zero_or_ok (s : List Char) : (Parse s).2 = none ∨ (Parse s).1 = 0 := by
  unfold Parse
  split
  · exact Or.inr rfl
  · split
    · exact Or.inr rfl
    · split
      · exact Or.inr rfl
      · exact Or.inl rfl

theorem Parse_eval (s : List Char) (q : ℚ) (U : ByteSize)
    (hs : s.length ≠ 0)
    (hu : lookupUnit (goToUpper (splitUnit s).1) = some U)
    (hq : goParseFloat (splitUnit s).2 = some q) :
    Parse s = (ratTrunc (q * (U : ℚ)), none) := by
  unfold Parse
  rw [if_neg hs]
  simp only [hu, hq]

theorem one_le_div_and_div_lt (v U : ℤ) (hU : 0 < U) (h1 : U ≤ v) (h2 : v < 1024 * U) :
    (1 : ℚ) ≤ (v : ℚ) / (U : ℚ) ∧ (v : ℚ) / (U : ℚ) < 1024 := by
  have hU' : (0 : ℚ) < (U : ℚ) := by exact_mod_cast hU
  constructor
  · rw [le_div_iff₀ hU', one_mul]
    exact_mod_cast h1
  · rw [div_lt_iff₀ hU']
    have h : (v : ℚ) < ((1024 * U : ℤ) : ℚ) := by exact_mod_cast h2
    push_cast at h
    linarith

/-! Claim theorems (batch 1). -/

/-- C1: the PB integer conversion in the source divides by the TB threshold:
at the failing input `TB` it returns 1 (the claim demands the truncation of
`TB / PB`, which is 0), and at `PB` it returns 1024 (the claim demands 1). -/
theorem claim_C1_pbint_divides_by_tb :
    ByteSize.PBInt TB = 1 ∧ ByteSize.PBInt PB = 1024 ∧ Int.tdiv TB PB = 0 := by
  refine ⟨?_, ?_, ?_⟩ <;> decide

/-- C2 counterexample: `Parse "1kb"` does not yield 1024; the lowercase 'k' in
second-to-last position is not in "KMGTP", so the unit is just "b" and the
numeric parse of "1k" fails. -/
theorem claim_C2_counterexample :
    Parse "1kb".toList ≠ (1024, none) ∧
    Parse "1kb".toList = (0, some (ParseError.malformedNumber "1k".toList)) := by
  constructor <;> decide

/-- C2 amended: `Parse "1Kb"` and `Parse "1KB"` succeed with 1024, but
`Parse "1kb"` fails with a malformed-number error on "1k". -/
theorem claim_C2_amended_thm :
    Parse "1Kb".toList = (1024, none) ∧
    Parse "1KB".toList = (1024, none) ∧
    Parse "1kb".toList = (0, some (ParseError.malformedNumber "1k".toList)) := by
  refine ⟨?_, ?_, by decide⟩
  · have h := Parse_eval "1Kb".toList 1 KB (by decide) (by decide) (by decide)
    rw [h, show (1 : ℚ) * ((KB : ℤ) : ℚ) = ((1024 : ℤ) : ℚ) by norm_num [KB],
      ratTrunc_intCast]
  · have h := Parse_eval "1KB".toList 1 KB (by decide) (by decide) (by decide)
    rw [h, show (1 : ℚ) * ((KB : ℤ) : ℚ) = ((1024 : ℤ) : ℚ) by norm_num [KB],
      ratTrunc_intCast]

/-- C3 counterexample: `Parse "1XB"` fails with the malformed-number error on
"1X" (the extracted unit is the valid "B"), not with an invalid-unit error. -/
theorem claim_C3_counterexample :
    Parse "1XB".toList = (0, some (ParseError.malformedNumber "1X".toList)) ∧
    (Parse "1XB".toList).2 ≠ some (ParseError.invalidUnit "XB".toList) := by
  constructor <;> decide

/-- C3 amended: `Parse ""` fails with the empty-input error, `Parse "OneKB"`
with the malformed-number error, but `Parse "1XB"` also fails with the
malformed-number error ("B" is a valid unit, "1X" is not a number); an
invalid-unit error naming the offending suffix arises e.g. for "5MA". -/
theorem claim_C3_amended_thm :
    Parse "".toList = (0, some ParseError.emptyInput) ∧
    Parse "1XB".toList = (0, some (ParseError.malformedNumber "1X".toList)) ∧
    Parse "OneKB".toList = (0, some (ParseError.malformedNumber "One".toList)) ∧
    Parse "5MA".toList = (0, some (ParseError.invalidUnit "MA".toList)) := by
  refine ⟨?_, ?_, ?_, ?_⟩ <;> decide

/-- C9: whenever `Parse` returns an error, the ByteSize it returns is 0. -/
theorem claim_C9_zero_on_error (s : List Char) (h : (Parse s).2 ≠ none) :
    (Parse s).1 = 0 := by
  rcases Parse_zero_or_ok s with h1 | h2
  · exact absurd h1 h
  · exact h2

theorem claim_C9_witness : (Parse "".toList).1 = 0 :=
  claim_C9_zero_on_error "".toList (by decide)

/-- C5: when the requested unit is zero or matches no known threshold, the
`units` scan in `Format` finds nothing and `Format` returns `String`'s output. -/
theorem claim_C5_format_fallback (fs bu : ByteSize)
    (h : bu ∉ [Byte, KB, MB, GB, TB, PB]) :
    ByteSize.Format fs bu = ByteSize.String fs := by
  simp only [List.mem_cons, List.not_mem_nil, or_false, not_or] at h
  obtain ⟨h1, h2, h3, h4, h5, h6⟩ := h
  have hfind : units.find? (fun u => u.1 == bu) = none := by
    rw [List.find?_eq_none]
    intro x hx
    fin_cases hx <;> simp only [beq_iff_eq]
    · exact fun hh => h1 hh.symm
    · exact fun hh => h2 hh.symm
    · exact fun hh => h3 hh.symm
    · exact fun hh => h4 hh.symm
    · exact fun hh => h5 hh.symm
    · exact fun hh => h6 hh.symm
  simp only [ByteSize.Format, hfind]

theorem claim_C5_witness : ByteSize.Format (512 * MB) 0 = ByteSize.String (512 * MB) :=
  claim_C5_format_fallback (512 * MB) 0 (by decide)

/-- C6: when suffix extraction, unit lookup and numeric parsing all succeed,
the result is the truncation toward zero of (value times the unit threshold);
in particular `Parse "1.5KB"` yields 1536 and `Parse "1024.5B"` yields 1024. -/
theorem claim_C6_truncation :
    (∀ (s : List Char) (q : ℚ) (U : ByteSize),
        s.length ≠ 0 →
        lookupUnit (goToUpper (splitUnit s).1) = some U →
        goParseFloat (splitUnit s).2 = some q →
        Parse s = (ratTrunc (q * (U : ℚ)), none)) ∧
    Parse "1.5KB".toList = (1536, none) ∧
    Parse "1024.5B".toList = (1024, none) := by
  refine ⟨Parse_eval, ?_, ?_⟩
  · have h := Parse_eval "1.5KB".toList ((3 : ℚ) / 2) KB (by decide) (by decide) ?hq
    case hq =>
      rw [show (splitUnit "1.5KB".toList).2 = "1.5".toList from by decide]
      rw [show goParseFloat "1.5".toList =
            some (((1 : ℕ) : ℚ) + ((5 : ℕ) : ℚ) / 10 ^ (1 : ℕ)) from rfl]
      norm_num
    rw [h]
    norm_num [ratTrunc, KB]
  · have h := Parse_eval "1024.5B".toList ((2049 : ℚ) / 2) Byte (by decide) (by decide) ?hq
    case hq =>
      rw [show (splitUnit "1024.5B".toList).2 = "1024.5".toList from by decide]
      rw [show goParseFloat "1024.5".toList =
            some (((1024 : ℕ) : ℚ) + ((5 : ℕ) : ℚ) / 10 ^ (1 : ℕ)) from rfl]
      norm_num
    rw [h]
    norm_num [ratTrunc, Byte]

theorem claim_C6_witness : Parse "2.5KB".toList = (2560, none) := by
  have h := claim_C6_truncation.1 "2.5KB".toList ((5 : ℚ) / 2) KB (by decide) (by decide)
    (by
      rw [show (splitUnit "2.5KB".toList).2 = "2.5".toList from by decide]
      rw [show goParseFloat "2.5".toList =
            some (((2 : ℕ) : ℚ) + ((5 : ℕ) : ℚ) / 10 ^ (1 : ℕ)) from rfl]
      norm_num)
  rw [h]
  norm_num [ratTrunc, KB]

/-- C4 counterexample: at `1024^6` bytes the switch selects PB, and the
quotient `1024^6 / PB` is 1024, which is not below 1024, so the selected unit
does not put the quotient in `[1, 1024)`. -/
theorem claim_C4_counterexample :
    (ByteSize.selectUnit (1024 ^ 6)).1 = PB ∧
    ¬ (((1024 ^ 6 : ℤ) : ℚ) / (((ByteSize.selectUnit (1024 ^ 6)).1) : ℚ) < 1024) := by
  have hsel : ByteSize.selectUnit (1024 ^ 6) = (PB, "PB".toList) := by decide
  refine ⟨by rw [hsel], ?_⟩
  rw [hsel]
  norm_num [PB]

/-- C4 amended: for `1 KB ≤ v < 1024 PB` the switch selects the unit U with
`v / U ∈ [1, 1024)`; for `v < 1 KB` it selects Byte; for `v ≥ 1024 PB` it
selects PB (whose quotient is then at least 1024). -/
theorem claim_C4_amended_thm (v : ℤ) :
    (1024 ≤ v → v < 1024 ^ 6 →
      (1 : ℚ) ≤ (v : ℚ) / ((ByteSize.selectUnit v).1 : ℚ) ∧
      (v : ℚ) / ((ByteSize.selectUnit v).1 : ℚ) < 1024) ∧
    (v < 1024 → ByteSize.selectUnit v = (Byte, "B".toList)) ∧
    (1024 ^ 6 ≤ v → (ByteSize.selectUnit v).1 = PB) := by
  refine ⟨?_, ?_, ?_⟩
  · intro h1 h2
    unfold ByteSize.selectUnit
    split_ifs with hPB hTB hGB hMB hKB <;> dsimp only
    · refine one_le_div_and_div_lt v PB (by norm_num [PB]) hPB ?_
      norm_num [PB]
      norm_num at h2
      exact h2
    · refine one_le_div_and_div_lt v TB (by norm_num [TB]) hTB ?_
      have hh := lt_of_not_ge hPB
      norm_num [PB] at hh
      norm_num [TB]
      exact hh
    · refine one_le_div_and_div_lt v GB (by norm_num [GB]) hGB ?_
      have hh := lt_of_not_ge hTB
      norm_num [TB] at hh
      norm_num [GB]
      exact hh
    · refine one_le_div_and_div_lt v MB (by norm_num [MB]) hMB ?_
      have hh := lt_of_not_ge hGB
      norm_num [GB] at hh
      norm_num [MB]
      exact hh
    · refine one_le_div_and_div_lt v KB (by norm_num [KB]) hKB ?_
      have hh := lt_of_not_ge hMB
      norm_num [MB] at hh
      norm_num [KB]
      exact hh
    · exfalso
      have hh := lt_of_not_ge hKB
      norm_num [KB] at hh
      exact absurd h1 (not_le.mpr hh)
  · intro h
    unfold ByteSize.selectUnit
    split_ifs with h1 h2 h3 h4 h5
    · exact absurd (le_trans (by norm_num [PB]) h1) (not_le.mpr h)
    · exact absurd (le_trans (by norm_num [TB]) h2) (not_le.mpr h)
    · exact absurd (le_trans (by norm_num [GB]) h3) (not_le.mpr h)
    · exact absurd (le_trans (by norm_num [MB]) h4) (not_le.mpr h)
    · exact absurd (le_trans (by norm_num [KB]) h5) (not_le.mpr h)
    · rfl
  · intro h
    unfold ByteSize.selectUnit
    rw [if_pos (le_trans (by norm_num [PB]) h)]

theorem claim_C4_witness :
    (1 : ℚ) ≤ (5000 : ℚ) / ((ByteSize.selectUnit 5000).1 : ℚ) ∧
    (5000 : ℚ) / ((ByteSize.selectUnit 5000).1 : ℚ) < 1024 :=
  (claim_C4_amended_thm 5000).1 (by norm_num) (by norm_num)

/-! Digit-string infrastructure. -/

theorem digitChar_mem_decDigits (n : ℕ) : digitChar n ∈ decDigits := by
  unfold digitChar
  by_cases h : n < decDigits.length
  · rw [List.getD_eq_getElem _ _ h]
    exact List.getElem_mem h
  · rw [List.getD_eq_default _ _ (by omega)]
    decide

theorem decDigits_not_KMGTP : ∀ c ∈ decDigits, goKMGTP.contains c = false := by decide

theorem decDigits_isDigit : ∀ c ∈ decDigits, Char.isDigit c = true := by decide

theorem decDigits_ne_dot : ∀ c ∈ decDigits, ¬ c = '.' := by decide

theorem decDigits_beq_dot : ∀ c ∈ decDigits, (c == '.') = false := by decide

theorem decDigits_beq_e : ∀ c ∈ decDigits, ((c == 'e') || (c == 'E')) = false := by decide

theorem decDigits_beq_plus : ∀ c ∈ decDigits, (c == '+') = false := by decide

theorem decDigits_beq_minus : ∀ c ∈ decDigits, (c == '-') = false := by decide

theorem natStrAux_succ (fuel n : ℕ) :
    natStrAux (fuel + 1) n =
      if n < 10 then [digitChar n] else natStrAux fuel (n / 10) ++ [digitChar (n % 10)] := rfl

theorem natStrAux_mem (fuel : ℕ) : ∀ n, ∀ c ∈ natStrAux fuel n, c ∈ decDigits := by
  induction fuel with
  | zero => intro n c hc; simp [natStrAux] at hc
  | succ fuel ih =>
    intro n c hc
    simp only [natStrAux] at hc
    split at hc
    · simp only [List.mem_singleton] at hc
      exact hc ▸ digitChar_mem_decDigits n
    · rw [List.mem_append, List.mem_singleton] at hc
      rcases hc with hc | hc
      · exact ih (n / 10) c hc
      · exact hc ▸ digitChar_mem_decDigits (n % 10)

theorem natStr_mem (n : ℕ) : ∀ c ∈ natStr n, c ∈ decDigits := natStrAux_mem (n + 1) n

theorem natStrAux_ne_nil (fuel n : ℕ) : natStrAux (fuel + 1) n ≠ [] := by
  simp only [natStrAux]
  split
  · simp
  · simp

theorem natStr_ne_nil (n : ℕ) : natStr n ≠ [] := natStrAux_ne_nil n n

theorem digitChar_toNat (n : ℕ) (h : n < 10) : (digitChar n).toNat - 48 = n := by
  interval_cases n <;> decide

theorem digitsToNat_single (n : ℕ) (h : n < 10) : digitsToNat [digitChar n] = n := by
  unfold digitsToNat
  simp only [List.foldl_cons, List.foldl_nil, Nat.mul_zero, Nat.zero_add]
  exact digitChar_toNat n h

theorem digitsToNat_append_single (l : List Char) (c : Char) :
    digitsToNat (l ++ [c]) = 10 * digitsToNat l + (c.toNat - 48) := by
  unfold digitsToNat
  rw [List.foldl_append]
  rfl

theorem digitsToNat_natStrAux (fuel : ℕ) :
    ∀ n, n < 10 ^ (fuel + 1) → digitsToNat (natStrAux (fuel + 1) n) = n := by
  induction fuel with
  | zero =>
    intro n h
    rw [pow_one] at h
    simp only [natStrAux, if_pos h]
    exact digitsToNat_single n h
  | succ fuel ih =>
    intro n h
    by_cases h10 : n < 10
    · rw [natStrAux_succ, if_pos h10]
      exact digitsToNat_single n h10
    · rw [natStrAux_succ, if_neg h10]
      have hdiv : n / 10 < 10 ^ (fuel + 1) := by
        rw [Nat.div_lt_iff_lt_mul (by norm_num)]
        calc n < 10 ^ (fuel + 2) := h
        _ = 10 ^ (fuel + 1) * 10 := by rw [pow_succ]
      rw [digitsToNat_append_single, ih (n / 10) hdiv,
        digitChar_toNat (n % 10) (Nat.mod_lt _ (by norm_num))]
      omega

theorem digitsToNat_natStr (n : ℕ) : digitsToNat (natStr n) = n := by
  have h : n < 10 ^ (n + 1) :=
    lt_of_lt_of_le (Nat.lt_pow_self (by norm_num) n)
      (Nat.pow_le_pow_right (by norm_num) (by omega))
  exact digitsToNat_natStrAux n n h

theorem natStrAux_length_le (fuel : ℕ) :
    ∀ n k, 1 ≤ k → n < 10 ^ k → (natStrAux fuel n).length ≤ k := by
  induction fuel with
  | zero => intro n k hk _; simp [natStrAux]
  | succ fuel ih =>
    intro n k hk hn
    simp only [natStrAux]
    split
    · simpa using hk
    · rename_i h10
      rw [List.length_append, List.length_singleton]
      have hk2 : 2 ≤ k := by
        by_contra hh
        have hk1 : k = 1 := by omega
        subst hk1
        rw [pow_one] at hn
        exact h10 hn
      have hdiv : n / 10 < 10 ^ (k - 1) := by
        rw [Nat.div_lt_iff_lt_mul (by norm_num)]
        calc n < 10 ^ k := hn
        _ = 10 ^ (k - 1) * 10 := by rw [← pow_succ]; congr 1; omega
      have := ih (n / 10) (k - 1) (by omega) hdiv
      omega

theorem natStr_length_le (n k : ℕ) (hk : 1 ≤ k) (hn : n < 10 ^ k) :
    (natStr n).length ≤ k := natStrAux_length_le (n + 1) n k hk hn

/-! Parsing a rendered digit string gives back the number. -/

theorem splitFirst_no_match (p : Char → Bool) (l : List Char) (h : ∀ c ∈ l, p c = false) :
    splitFirst p l = (l, none) := by
  induction l with
  | nil => rfl
  | cons c rest ih =>
    simp only [splitFirst]
    rw [h c (List.mem_cons_self c rest), if_neg (by simp)]
    rw [ih (fun x hx => h x (List.mem_cons_of_mem _ hx))]

theorem parseMantissa_digits (l : List Char) (hne : l ≠ [])
    (hd : ∀ c ∈ l, c ∈ decDigits) :
    parseMantissa l = some ((digitsToNat l : ℕ) : ℚ) := by
  unfold parseMantissa
  rw [splitFirst_no_match _ _ (fun x hx => decDigits_beq_dot x (hd x hx))]
  exact if_pos ⟨hne, List.all_eq_true.mpr (fun x hx => decDigits_isDigit x (hd x hx))⟩

theorem parseUnsigned_digits (l : List Char) (hne : l ≠ [])
    (hd : ∀ c ∈ l, c ∈ decDigits) :
    parseUnsigned l = some ((digitsToNat l : ℕ) : ℚ) := by
  unfold parseUnsigned
  rw [splitFirst_no_match _ _ (fun x hx => decDigits_beq_e x (hd x hx))]
  exact parseMantissa_digits l hne hd

theorem goParseFloat_digits (l : List Char) (hne : l ≠ [])
    (hd : ∀ c ∈ l, c ∈ decDigits) :
    goParseFloat l = some ((digitsToNat l : ℕ) : ℚ) := by
  obtain ⟨c, rest, rfl⟩ := List.exists_cons_of_ne_nil hne
  have hc := hd c (List.mem_cons_self _ _)
  show (if (c == '+') = true then parseUnsigned rest
    else if (c == '-') = true then Option.map (fun q => -q) (parseUnsigned rest)
    else parseUnsigned (c :: rest)) = _
  rw [decDigits_beq_plus c hc, decDigits_beq_minus c hc, if_neg (by simp), if_neg (by simp)]
  exact parseUnsigned_digits _ hne hd

theorem goParseFloat_natStr (n : ℕ) : goParseFloat (natStr n) = some ((n : ℕ) : ℚ) := by
  rw [goParseFloat_digits (natStr n) (natStr_ne_nil n) (natStr_mem n), digitsToNat_natStr]

/-! Suffix extraction on a digit string followed by a unit suffix. -/

theorem splitUnit_two (d : List Char) (c1 c2 : Char) (hd : d ≠ [])
    (hc1 : goKMGTP.contains c1 = true) :
    splitUnit (d ++ [c1, c2]) = ([c1, c2], d) := by
  have hlen : (d ++ [c1, c2]).length = d.length + 2 := by simp
  have hidx : (d ++ [c1, c2]).getD ((d ++ [c1, c2]).length - 2) ' ' = c1 := by
    rw [hlen, Nat.add_sub_cancel, List.getD_append_right _ _ _ _ (le_refl _)]
    simp
  unfold splitUnit
  rw [if_pos ⟨by rw [hlen]; have := List.length_pos.mpr hd; omega, by rw [hidx]; exact hc1⟩]
  rw [hlen, Nat.add_sub_cancel, List.drop_left, List.take_left]

theorem splitUnit_one (d : List Char) (b : Char)
    (hdig : ∀ c ∈ d, c ∈ decDigits) :
    splitUnit (d ++ [b]) = ([b], d) := by
  have hlen : (d ++ [b]).length = d.length + 1 := by simp
  have hneg : ¬(2 < (d ++ [b]).length ∧
      goKMGTP.contains ((d ++ [b]).getD ((d ++ [b]).length - 2) ' ') = true) := by
    rintro ⟨h2, hcon⟩
    rw [hlen] at h2
    have hdl : 2 ≤ d.length := by omega
    have hidx : (d ++ [b]).getD ((d ++ [b]).length - 2) ' ' = d.getD (d.length - 1) ' ' := by
      rw [hlen, show d.length + 1 - 2 = d.length - 1 from by omega]
      exact List.getD_append _ _ _ _ (by omega)
    rw [hidx] at hcon
    have hmem : d.getD (d.length - 1) ' ' ∈ d := by
      rw [List.getD_eq_getElem _ _ (by omega)]
      exact List.getElem_mem _
    rw [decDigits_not_KMGTP _ (hdig _ hmem)] at hcon
    exact Bool.false_ne_true hcon
  unfold splitUnit
  rw [if_neg hneg, hlen, Nat.add_sub_cancel, List.drop_left, List.take_left]

/-! formatString on a whole number prints the bare integer. -/

theorem decimalPlacesAux_intCast (fuel : ℕ) (z : ℤ) :
    decimalPlacesAux fuel ((z : ℤ) : ℚ) = 0 := by
  cases fuel with
  | zero => rfl
  | succ fuel =>
    simp only [decimalPlacesAux]
    rw [if_neg]
    rw [Int.floor_intCast]
    simp only [sub_self, abs_zero]
    norm_num

theorem decimalPlaces_intCast (z : ℤ) : decimalPlaces ((z : ℤ) : ℚ) = 0 :=
  decimalPlacesAux_intCast 100 z

theorem goRoundInt_intCast (z : ℤ) : goRoundInt ((z : ℤ) : ℚ) = z := by
  unfold goRoundInt
  split
  · rw [Int.floor_int_add]
    norm_num
  · rw [show -((z : ℤ) : ℚ) = ((-z : ℤ) : ℚ) from by push_cast; ring, Int.floor_int_add]
    norm_num

theorem renderFixed_zero (m : ℤ) (hm : 0 ≤ m) : renderFixed m 0 = natStr m.natAbs := by
  unfold renderFixed
  rw [if_pos rfl, if_neg (by omega : ¬ m < 0)]

theorem formatString_natCast (k : ℕ) (u : List Char) :
    formatString ((k : ℕ) : ℚ) u (some 2) = natStr k ++ u := by
  have hcast : ((k : ℕ) : ℚ) = ((k : ℤ) : ℚ) := by push_cast; ring
  have hdp : decimalPlaces ((k : ℕ) : ℚ) = 0 := by
    rw [hcast]; exact decimalPlaces_intCast k
  simp only [formatString, hdp]
  rw [if_neg (by norm_num)]
  rw [pow_zero, mul_one, hcast, goRoundInt_intCast]
  rw [renderFixed_zero _ (by exact_mod_cast Nat.zero_le k), Int.natAbs_ofNat]

/-! The Format scan finds each table unit. -/

theorem units_find?_byte : units.find? (fun p => p.1 == Byte) = some (Byte, "B".toList) := by
  decide

theorem units_find?_kb : units.find? (fun p => p.1 == KB) = some (KB, "KB".toList) := by
  decide

theorem units_find?_mb : units.find? (fun p => p.1 == MB) = some (MB, "MB".toList) := by
  decide

theorem units_find?_gb : units.find? (fun p => p.1 == GB) = some (GB, "GB".toList) := by
  decide

theorem units_find?_tb : units.find? (fun p => p.1 == TB) = some (TB, "TB".toList) := by
  decide

theorem units_find?_pb : units.find? (fun p => p.1 == PB) = some (PB, "PB".toList) := by
  decide

/-! Parse applied to a digit string with a unit suffix. -/

theorem Parse_natStr_suffix (n : ℕ) (suffix : List Char) (U : ByteSize)
    (hsplit : splitUnit (natStr n ++ suffix) = (suffix, natStr n))
    (hlk : lookupUnit (goToUpper suffix) = some U) :
    Parse (natStr n ++ suffix) = ((n : ℤ) * U, none) := by
  have hs : (natStr n ++ suffix).length ≠ 0 := by
    intro hc
    rw [List.length_append] at hc
    exact natStr_ne_nil n (List.length_eq_zero.mp (by omega))
  have h := Parse_eval (natStr n ++ suffix) ((n : ℕ) : ℚ) U hs
    (by rw [hsplit]; exact hlk) (by rw [hsplit]; exact goParseFloat_natStr n)
  rw [h, show ((n : ℕ) : ℚ) * ((U : ℤ) : ℚ) = (((n : ℤ) * U : ℤ) : ℚ) from by push_cast; ring,
    ratTrunc_intCast]

/-- C7: formatting `n * U` in its own unit U prints the bare integer `n`
followed by U's suffix, and parsing that back returns exactly `n * U`; in the
exact-rational model the formatted decimal representation of `n * U` is always
exact, so the round-trip holds for every `n ≥ 0` and every ladder unit. -/
theorem claim_C7_roundtrip (n : ℕ) (u : ByteSize × List Char) (hu : u ∈ units) :
    Parse (ByteSize.Format ((n : ℤ) * u.1) u.1) = ((n : ℤ) * u.1, none) := by
  fin_cases hu <;> dsimp only
  · have hfmt : ByteSize.Format ((n : ℤ) * Byte) Byte = natStr n ++ "B".toList := by
      simp only [ByteSize.Format, units_find?_byte]
      rw [show ((((n : ℤ) * Byte) : ℤ) : ℚ) / ((Byte : ℤ) : ℚ) = ((n : ℕ) : ℚ) from by
        push_cast [Byte]; field_simp]
      exact formatString_natCast n _
    rw [hfmt]
    exact Parse_natStr_suffix n "B".toList Byte
      (splitUnit_one _ 'B' (natStr_mem n)) (by decide)
  · have hfmt : ByteSize.Format ((n : ℤ) * KB) KB = natStr n ++ "KB".toList := by
      simp only [ByteSize.Format, units_find?_kb]
      rw [show ((((n : ℤ) * KB) : ℤ) : ℚ) / ((KB : ℤ) : ℚ) = ((n : ℕ) : ℚ) from by
        push_cast [KB]; field_simp]
      exact formatString_natCast n _
    rw [hfmt]
    exact Parse_natStr_suffix n "KB".toList KB
      (splitUnit_two _ 'K' 'B' (natStr_ne_nil n) (by decide)) (by decide)
  · have hfmt : ByteSize.Format ((n : ℤ) * MB) MB = natStr n ++ "MB".toList := by
      simp only [ByteSize.Format, units_find?_mb]
      rw [show ((((n : ℤ) * MB) : ℤ) : ℚ) / ((MB : ℤ) : ℚ) = ((n : ℕ) : ℚ) from by
        push_cast [MB]; field_simp]
      exact formatString_natCast n _
    rw [hfmt]
    exact Parse_natStr_suffix n "MB".toList MB
      (splitUnit_two _ 'M' 'B' (natStr_ne_nil n) (by decide)) (by decide)
  · have hfmt : ByteSize.Format ((n : ℤ) * GB) GB = natStr n ++ "GB".toList := by
      simp only [ByteSize.Format, units_find?_gb]
      rw [show ((((n : ℤ) * GB) : ℤ) : ℚ) / ((GB : ℤ) : ℚ) = ((n : ℕ) : ℚ) from by
        push_cast [GB]; field_simp]
      exact formatString_natCast n _
    rw [hfmt]
    exact Parse_natStr_suffix n "GB".toList GB
      (splitUnit_two _ 'G' 'B' (natStr_ne_nil n) (by decide)) (by decide)
  · have hfmt : ByteSize.Format ((n : ℤ) * TB) TB = natStr n ++ "TB".toList := by
      simp only [ByteSize.Format, units_find?_tb]
      rw [show ((((n : ℤ) * TB) : ℤ) : ℚ) / ((TB : ℤ) : ℚ) = ((n : ℕ) : ℚ) from by
        push_cast [TB]; field_simp]
      exact formatString_natCast n _
    rw [hfmt]
    exact Parse_natStr_suffix n "TB".toList TB
      (splitUnit_two _ 'T' 'B' (natStr_ne_nil n) (by decide)) (by decide)
  · have hfmt : ByteSize.Format ((n : ℤ) * PB) PB = natStr n ++ "PB".toList := by
      simp only [ByteSize.Format, units_find?_pb]
      rw [show ((((n : ℤ) * PB) : ℤ) : ℚ) / ((PB : ℤ) : ℚ) = ((n : ℕ) : ℚ) from by
        push_cast [PB]; field_simp]
      exact formatString_natCast n _
    rw [hfmt]
    exact Parse_natStr_suffix n "PB".toList PB
      (splitUnit_two _ 'P' 'B' (natStr_ne_nil n) (by decide)) (by decide)

theorem claim_C7_witness : Parse (ByteSize.Format ((3 : ℤ) * KB) KB) = (3072, none) := by
  have h := claim_C7_roundtrip 3 (KB, "KB".toList) (by decide)
  rw [show ((3 : ℕ) : ℤ) * (KB, "KB".toList).1 = (3072 : ℤ) from by norm_num [KB]] at h
  exact h

/-! Counting digits after the decimal point of rendered output. -/

theorem digitsAfterDot_no_dot (l : List Char) (h : ∀ c ∈ l, ¬ c = '.') :
    digitsAfterDot l = 0 := by
  induction l with
  | nil => rfl
  | cons c rest ih =>
    simp only [digitsAfterDot]
    rw [if_neg (h c (List.mem_cons_self _ _))]
    exact ih (fun x hx => h x (List.mem_cons_of_mem _ hx))

theorem digitsAfterDot_append_no_dot (a b : List Char) (h : ∀ c ∈ a, ¬ c = '.') :
    digitsAfterDot (a ++ b) = digitsAfterDot b := by
  induction a with
  | nil => rfl
  | cons c rest ih =>
    simp only [List.cons_append, digitsAfterDot]
    rw [if_neg (h c (List.mem_cons_self _ _))]
    exact ih (fun x hx => h x (List.mem_cons_of_mem _ hx))

theorem digitsAfterDot_dot_cons (l : List Char) :
    digitsAfterDot ('.' :: l) = (l.takeWhile Char.isDigit).length := by
  simp [digitsAfterDot]

theorem takeWhile_digits_append (a b : List Char) (ha : ∀ c ∈ a, Char.isDigit c = true) :
    (a ++ b).takeWhile Char.isDigit = a ++ b.takeWhile Char.isDigit := by
  induction a with
  | nil => rfl
  | cons c rest ih =>
    simp only [List.cons_append, List.takeWhile_cons]
    rw [ha c (List.mem_cons_self _ _)]
    simp only [if_true]
    rw [ih (fun x hx => ha x (List.mem_cons_of_mem _ hx))]

theorem takeWhile_head_not_digit (b : List Char)
    (hb : ∀ c, b.head? = some c → Char.isDigit c = false) :
    b.takeWhile Char.isDigit = [] := by
  cases b with
  | nil => rfl
  | cons c rest =>
    rw [List.takeWhile_cons, hb c rfl]
    simp

theorem padLeftZeros_length (d : ℕ) (l : List Char) (h : l.length ≤ d) :
    (padLeftZeros d l).length = d := by
  unfold padLeftZeros
  rw [List.length_append, List.length_replicate]
  omega

theorem padLeftZeros_digits (d : ℕ) (l : List Char) (h : ∀ c ∈ l, c ∈ decDigits) :
    ∀ c ∈ padLeftZeros d l, Char.isDigit c = true := by
  intro c hc
  unfold padLeftZeros at hc
  rw [List.mem_append] at hc
  rcases hc with hc | hc
  · rw [List.eq_of_mem_replicate hc]
    decide
  · exact decDigits_isDigit c (h c hc)

theorem head_not_digit_of_first (a : Char) (l : List Char) (ha : Char.isDigit a = false) :
    ∀ c, (a :: l).head? = some c → Char.isDigit c = false := by
  intro c hc
  simp only [List.head?_cons, Option.some.injEq] at hc
  exact hc ▸ ha

theorem digitsAfterDot_renderFixed (m : ℤ) (d : ℕ) (hd : d ≤ 2) (u : List Char)
    (hu_dot : ∀ c ∈ u, ¬ c = '.')
    (hu_head : ∀ c, u.head? = some c → Char.isDigit c = false) :
    digitsAfterDot (renderFixed m d ++ u) ≤ 2 := by
  by_cases h0 : d = 0
  · subst h0
    rw [digitsAfterDot_no_dot]
    · omega
    · intro c hc
      rw [List.mem_append] at hc
      rcases hc with hc | hc
      · revert hc
        unfold renderFixed
        rw [if_pos rfl]
        split
        · intro hc
          rcases List.mem_cons.mp hc with hc | hc
          · subst hc; decide
          · exact decDigits_ne_dot _ (natStr_mem _ _ hc)
        · intro hc
          exact decDigits_ne_dot _ (natStr_mem _ _ hc)
      · exact hu_dot c hc
  · have hd1 : 1 ≤ d := by omega
    unfold renderFixed
    rw [if_neg h0, List.append_assoc, List.append_assoc, List.cons_append]
    rw [digitsAfterDot_append_no_dot _ _ ?hnd, digitsAfterDot_append_no_dot _ _ ?hnd2]
    case hnd =>
      intro c hc
      split at hc
      · rw [List.mem_singleton] at hc
        subst hc; decide
      · simp at hc
    case hnd2 =>
      intro c hc
      exact decDigits_ne_dot _ (natStr_mem _ _ hc)
    rw [digitsAfterDot_dot_cons,
      takeWhile_digits_append _ _ (padLeftZeros_digits _ _ (natStr_mem _)),
      takeWhile_head_not_digit _ hu_head, List.append_nil, padLeftZeros_length]
    · exact hd
    · exact natStr_length_le _ _ hd1 (Nat.mod_lt _ (by positivity))

theorem formatString_cap (v : ℚ) (u : List Char)
    (h1 : ∀ c ∈ u, ¬ c = '.')
    (h2 : ∀ c, u.head? = some c → Char.isDigit c = false) :
    digitsAfterDot (formatString v u (some 2)) ≤ 2 := by
  simp only [formatString]
  by_cases hc : (2 : ℤ) < ((decimalPlaces v : ℕ) : ℤ)
  · rw [if_pos ⟨by norm_num, hc⟩]
    exact digitsAfterDot_renderFixed _ _ (by norm_num) u h1 h2
  · rw [if_neg (fun hh => hc hh.2)]
    have hle : decimalPlaces v ≤ 2 := by exact_mod_cast not_lt.mp hc
    exact digitsAfterDot_renderFixed _ _ hle u h1 h2

theorem selectUnit_snd (fs : ByteSize) :
    (ByteSize.selectUnit fs).2 = "B".toList ∨ (ByteSize.selectUnit fs).2 = "KB".toList ∨
    (ByteSize.selectUnit fs).2 = "MB".toList ∨ (ByteSize.selectUnit fs).2 = "GB".toList ∨
    (ByteSize.selectUnit fs).2 = "TB".toList ∨ (ByteSize.selectUnit fs).2 = "PB".toList := by
  unfold ByteSize.selectUnit
  split_ifs <;> simp

theorem String_digitsAfterDot_le (fs : ByteSize) :
    digitsAfterDot (ByteSize.String fs) ≤ 2 := by
  unfold ByteSize.String
  apply formatString_cap
  · rcases selectUnit_snd fs with h | h | h | h | h | h <;> rw [h] <;> decide
  · rcases selectUnit_snd fs with h | h | h | h | h | h <;> rw [h]
    · exact head_not_digit_of_first 'B' _ (by decide)
    · exact head_not_digit_of_first 'K' _ (by decide)
    · exact head_not_digit_of_first 'M' _ (by decide)
    · exact head_not_digit_of_first 'G' _ (by decide)
    · exact head_not_digit_of_first 'T' _ (by decide)
    · exact head_not_digit_of_first 'P' _ (by decide)

/-- C8: every string `Format` returns — and every string `String` returns —
has at most 2 digits directly after the decimal point. -/
theorem claim_C8_decimal_cap (fs bu : ByteSize) :
    digitsAfterDot (ByteSize.Format fs bu) ≤ 2 ∧
    digitsAfterDot (ByteSize.String fs) ≤ 2 := by
  refine ⟨?_, String_digitsAfterDot_le fs⟩
  rcases hfind : units.find? (fun p => p.1 == bu) with _ | u
  · simp only [ByteSize.Format, hfind]
    exact String_digitsAfterDot_le fs
  · simp only [ByteSize.Format, hfind]
    have hu := List.mem_of_find?_eq_some hfind
    fin_cases hu <;> dsimp only
    · exact formatString_cap _ _ (by decide) (head_not_digit_of_first 'B' _ (by decide))
    · exact formatString_cap _ _ (by decide) (head_not_digit_of_first 'K' _ (by decide))
    · exact formatString_cap _ _ (by decide) (head_not_digit_of_first 'M' _ (by decide))
    · exact formatString_cap _ _ (by decide) (head_not_digit_of_first 'G' _ (by decide))
    · exact formatString_cap _ _ (by decide) (head_not_digit_of_first 'T' _ (by decide))
    · exact formatString_cap _ _ (by decide) (head_not_digit_of_first 'P' _ (by decide))
